import Mathlib

/-!
Verification of the stub-matching and response-resolution engine of the
mountebank service-virtualization server, shallowly embedded from
`src/models/stubRepository.js`.

Requests, predicate trees and response descriptors are structured JSON-like
values.  Fallible evaluation (the source throws `ValidationError`) is
modelled with `Except`.  The asynchronous resolver is modelled as a function
from the popped response descriptor, the request and the current stub list
to either a response or a rejection value, and `resolve` is modelled as an
explicit state transition on the repository's stub list.
-/

/-- Structured values: the protocol-agnostic request/predicate/response data
(mappings of field name to value, sequences, and primitives). -/
inductive Value where
  | str (s : String)
  | num (n : Int)
  | bool (b : Bool)
  | arr (items : List Value)
  | obj (fields : List (String × Value))

mutual

/-- Deep structural equality of values (the comparison performed by the
equality matchers). -/
def Value.beq : Value → Value → Bool
  | .str a, .str b => a == b
  | .num a, .num b => a == b
  | .bool a, .bool b => a == b
  | .arr a, .arr b => Value.beqList a b
  | .obj a, .obj b => Value.beqFields a b
  | _, _ => false

/-- Elementwise deep equality of sequences. -/
def Value.beqList : List Value → List Value → Bool
  | [], [] => true
  | x :: xs, y :: ys => Value.beq x y && Value.beqList xs ys
  | _, _ => false

/-- Fieldwise deep equality of mappings. -/
def Value.beqFields : List (String × Value) → List (String × Value) → Bool
  | [], [] => true
  | (k, v) :: xs, (l, w) :: ys => k == l && Value.beq v w && Value.beqFields xs ys
  | _, _ => false

end

/-- JavaScript `typeof v === 'object'`: true for mappings and sequences. -/
def Value.isObjectType : Value → Bool
  | .obj _ => true
  | .arr _ => true
  | _ => false

/-- A structured mapping (a JavaScript object that is not an array). -/
def Value.isMapping : Value → Bool
  | .obj _ => true
  | _ => false

/-- Look up one field of a mapping. -/
def lookupField : Value → String → Option Value
  | .obj fields, name => (fields.find? (fun kv => kv.1 == name)).map Prod.snd
  | _, _ => none

/-- Split a character list at each dot. -/
def splitDotsChars : List Char → List (List Char)
  | [] => [[]]
  | c :: rest =>
      let segs := splitDotsChars rest
      if c = '.' then [] :: segs
      else
        match segs with
        | seg :: more => (c :: seg) :: more
        | [] => [[c]]

/-- Split a dot-composed field name into its segments. -/
def splitPath (s : String) : List String :=
  (splitDotsChars s.toList).map (fun cs => String.mk cs)

/-- Resolve a dot-composed field name against a request by traversing
nested mappings segment by segment. -/
def lookupPath (request : Value) (fieldName : String) : Option Value :=
  (splitPath fieldName).foldl (fun acc seg => acc.bind (fun v => lookupField v seg)) (some request)

/-- Modelled from the spec: the predicate operator registry
(`src/models/predicates.js` is required by the repository but absent from
the provided sources).  The spec's leaf matchers are modelled (equality,
deep structural equality, prefix/suffix containment, existence); the
logical combinators, regex matcher and externally supplied scripted
predicates are omitted, as no claim depends on them. -/
inductive Op where
  | equals
  | deepEquals
  | startsWith
  | endsWith
  | opExists
deriving DecidableEq

/-- Modelled from the spec: which predicate keys name a recognized operator
(`predicates[key]` truthiness in the source). -/
def predicatesReg : String → Option Op
  | "equals" => some .equals
  | "deepEquals" => some .deepEquals
  | "startsWith" => some .startsWith
  | "endsWith" => some .endsWith
  | "exists" => some .opExists
  | _ => none

/-- Modelled from the spec: each leaf matcher compares the request field
addressed by the dot-composed field name against its literal argument. -/
def applyOp (op : Op) (fieldName : String) (expected : Value) (request : Value) : Bool :=
  let actual := lookupPath request fieldName
  match op with
  | .equals =>
      match actual with
      | some a => Value.beq a expected
      | none => false
  | .deepEquals =>
      match actual with
      | some a => Value.beq a expected
      | none => false
  | .startsWith =>
      match actual, expected with
      | some (.str a), .str e => a.startsWith e
      | _, _ => false
  | .endsWith =>
      match actual, expected with
      | some (.str a), .str e => a.endsWith e
      | _, _ => false
  | .opExists => Value.beq expected (.bool actual.isSome)

/-- The `ValidationError`s thrown by `matchesPredicate` in the source,
each carrying the offending predicate node as its `source`. -/
inductive VError where
  | predicateMustBeObject (source : Value)
  | noPredicate (key : String) (source : Value)

mutual

/-- Function `matchesPredicate(fieldName, predicate, request)` from the source: a
non-mapping node throws `ValidationError('predicate must be an object')`;
otherwise every key of the node is evaluated (map, then every) and the
results are conjoined. -/
def matchesPredicate (fieldName : String) (predicate : Value) (request : Value) :
    Except VError Bool :=
  match predicate with
  | .obj entries =>
      match evalEntries fieldName (.obj entries) entries request with
      | .ok results => .ok (results.all (fun r => r))
      | .error e => .error e
  | _ => .error (.predicateMustBeObject predicate)

/-- The `Object.keys(obj).map(predicate)` step of `trueForAll` as used
inside `matchesPredicate`: each key is dispatched to a recognized
operator, recursed into when its argument has object type, or rejected
with `ValidationError("no predicate '<key>'")`. -/
def evalEntries (fieldName : String) (source : Value) (entries : List (String × Value))
    (request : Value) : Except VError (List Bool) :=
  match entries with
  | [] => .ok []
  | (key, arg) :: rest =>
      match
        (match predicatesReg key with
         | some op => Except.ok (applyOp op fieldName arg request)
         | none =>
             if arg.isObjectType then matchesPredicate (fieldName ++ "." ++ key) arg request
             else Except.error (.noPredicate key source)) with
      | .error e => .error e
      | .ok r =>
          match evalEntries fieldName source rest request with
          | .error e => .error e
          | .ok rs => .ok (r :: rs)
end

/-- One key dispatch step of `matchesPredicate` (the callback passed to
`trueForAll` in the source). -/
def evaluateKey (fieldName key : String) (arg source request : Value) : Except VError Bool :=
  match predicatesReg key with
  | some op => Except.ok (applyOp op fieldName arg request)
  | none =>
      if arg.isObjectType then matchesPredicate (fieldName ++ "." ++ key) arg request
      else Except.error (.noPredicate key source)

/-- Left-to-right fallible map, as JavaScript `Array.prototype.map` behaves
when the callback can throw: every element is visited in order and the
first thrown error propagates. -/
def mapME (f : α → Except ε β) : List α → Except ε (List β)
  | [] => .ok []
  | x :: xs =>
      match f x with
      | .error e => .error e
      | .ok y =>
          match mapME f xs with
          | .error e => .error e
          | .ok ys => .ok (y :: ys)

/-- Function `trueForAll(obj, predicate)` from the source: map every key of the
mapping through the predicate, then conjoin all results — calling every
key rather than short-circuiting. -/
def trueForAll (entries : List (String × Value)) (p : String → Value → Except VError Bool) :
    Except VError Bool :=
  match mapME (fun kv => p kv.1 kv.2) entries with
  | .ok results => .ok (results.all (fun r => r))
  | .error e => .error e

/-- One recorded match: `{ timestamp, request, response }`. -/
structure MatchRecord where
  timestamp : String
  request : Value
  response : Value

/-- A configured stub: a predicate mapping (`stub.predicates || {}` — an
absent predicate set is the empty mapping), the rotating queue of response
descriptors, and the accumulated match history (the source's `matches`
array; `matches` is reserved in Lean). -/
structure Stub where
  predicates : List (String × Value)
  responses : List Value
  matchHistory : List MatchRecord

/-- The per-stub filter callback of `findFirstMatch`: every field of the
stub's predicate mapping must hold for the request. -/
def stubMatch (stub : Stub) (request : Value) : Except VError Bool :=
  trueForAll stub.predicates (fun fieldName node => matchesPredicate fieldName node request)

/-- Select the stub at the first `true` flag, returning it with the stubs
before and after it (the source returns a live reference into the array;
the surrounding context stands in for that aliasing). -/
def selectFirst : List Stub → List Bool → Option (List Stub × Stub × List Stub)
  | stub :: stubs, flag :: flags =>
      if flag then some ([], stub, stubs)
      else
        match selectFirst stubs flags with
        | some (pre, s, post) => some (stub :: pre, s, post)
        | none => none
  | _, _ => none

/-- Function `findFirstMatch(request, logger)` from the source: filter the stubs by
their predicate check (evaluating every stub) and take the first match;
`undefined` when the repository is empty or nothing matches. -/
def findFirstMatch (stubs : List Stub) (request : Value) :
    Except VError (Option (List Stub × Stub × List Stub)) :=
  match mapME (fun stub => stubMatch stub request) stubs with
  | .ok flags => .ok (selectFirst stubs flags)
  | .error e => .error e

/-- Rotation `responses.shift()` followed by `responses.push(...)`: move the head
descriptor to the tail.  The source would push `undefined` back for an
empty queue; descriptors are modelled as present values, so an empty
queue stays empty. -/
def rotateQueue : List Value → List Value
  | [] => []
  | r :: rest => rest ++ [r]

/-- The implicit fallback descriptor `{ is: {} }`. -/
def responseDefault : Value := .obj [("is", .obj [])]

/-- A stub after one rotation of its response queue. -/
def Stub.rotate (s : Stub) : Stub := { s with responses := rotateQueue s.responses }

/-- A stub with one match record appended to its history. -/
def Stub.record (s : Stub) (m : MatchRecord) : Stub :=
  { s with matchHistory := s.matchHistory ++ [m] }

/-- The resolver contract: from the popped response descriptor (`none`
models `undefined`), the request and the current stub list, produce a
response or a rejection value. -/
def Resolver := Option Value → Value → List Stub → Except Value Value

/-- Function `resolve(request, logger)` from the source, as a state transition on
the stub list: find the first match (or the implicit `{ is: {} }` stub),
rotate the selected stub's response queue, invoke the resolver, and on
success append one match record to the selected stub before fulfilling;
on failure reject with the resolver's error and record nothing. -/
def resolve (resolver : Resolver) (stubs : List Stub) (request : Value) (timestamp : String) :
    Except VError (List Stub × Except Value Value) :=
  match findFirstMatch stubs request with
  | .error e => .error e
  | .ok none =>
      -- the implicit stub `{ responses: [{ is: {} }] }` rotates in place and
      -- keeps any match record; the repository itself is left untouched
      .ok (stubs, resolver (some responseDefault) request stubs)
  | .ok (some (pre, stub, post)) =>
      let descriptor := stub.responses.head?
      let rotated : Stub := { stub with responses := rotateQueue stub.responses }
      let stubsAfter := pre ++ rotated :: post
      match resolver descriptor request stubsAfter with
      | .ok response =>
          .ok (pre ++ { rotated with
                        matchHistory := rotated.matchHistory ++ [⟨timestamp, request, response⟩] } :: post,
               .ok response)
      | .error e => .ok (stubsAfter, .error e)

/-- Sequential iteration of `resolve`, collecting each call's outcome. -/
def iterateResolve (resolver : Resolver) (stubs : List Stub) (request : Value)
    (timestamp : String) : Nat → Except VError (List Stub × List (Except Value Value))
  | 0 => .ok (stubs, [])
  | n + 1 =>
      match resolve resolver stubs request timestamp with
      | .error e => .error e
      | .ok (stubs1, r) =>
          match iterateResolve resolver stubs1 request timestamp n with
          | .error e => .error e
          | .ok (stubs2, rs) => .ok (stubs2, r :: rs)

/-- A resolver that echoes the response descriptor it was handed. -/
def echoResolver : Resolver := fun descriptor _ _ =>
  match descriptor with
  | some v => .ok v
  | none => .error (.str "undefined descriptor")

/-- The response queues of every stub, encoded as a value: lets a resolver
report the exact queue state it observed. -/
def queuesOf (stubs : List Stub) : Value :=
  .arr (stubs.map (fun stub => .arr stub.responses))

/-- A resolver that reports the stub-list state it was invoked with. -/
def spyResolver : Resolver := fun _ _ allStubs => .ok (queuesOf allStubs)

/-- A resolver that always rejects (an unreachable proxied backend). -/
def failResolver : Resolver := fun _ _ _ => .error (.str "proxy down")

/-- An entry of a predicate node whose key names no operator and whose
argument is not a structured mapping: dispatching it throws, either
directly (`no predicate '<key>'` for a primitive argument) or through the
recursion's object guard (for a sequence argument). -/
def badEntry (ka : String × Value) : Prop :=
  predicatesReg ka.1 = none ∧ ka.2.isMapping = false

/-- A malformed predicate node: either not a mapping at all, or a mapping
containing an unrecognized operator key with a non-object argument. -/
def malformedNode : Value → Prop
  | .obj entries => ∃ ka ∈ entries, badEntry ka
  | _ => True

/-- A stub whose predicate mapping contains a malformed node. -/
def malformedStub (t : Stub) : Prop := ∃ fn ∈ t.predicates, malformedNode fn.2

/-- Concrete fixtures used by the witnesses below. -/
def reqA : Value := .obj [("path", .str "/a")]

/-- A stub matching requests whose path equals `/a`. -/
def stubA : Stub := ⟨[("path", .obj [("equals", .str "/a")])], [.str "first"], []⟩

/-- A second stub matching the same requests as `stubA`. -/
def stubB : Stub := ⟨[("path", .obj [("equals", .str "/a")])], [.str "second"], []⟩

/-- A stub matching only requests whose path equals `/b`. -/
def stubC : Stub := ⟨[("path", .obj [("equals", .str "/b")])], [.str "other"], []⟩

/-- A stub whose predicate names the unrecognized operator `bogus`. -/
def stubBroken : Stub := ⟨[("path", .obj [("bogus", .str "x")])], [.str "broken"], []⟩

section Lemmas

variable {α β ε : Type}

/-- If the fallible map succeeded, every element evaluated successfully. -/
theorem mapME_ok_forall {f : α → Except ε β} :
    ∀ {l : List α} {ys : List β}, mapME f l = .ok ys → ∀ x ∈ l, ∃ y, f x = .ok y := by
  intro l
  induction l with
  | nil => intro ys _ x hx; cases hx
  | cons a as ih =>
      intro ys h x hx
      rw [mapME] at h
      cases ha : f a with
      | error e => rw [ha] at h; cases h
      | ok y =>
          rw [ha] at h
          cases has : mapME f as with
          | error e => rw [has] at h; cases h
          | ok ys' =>
              cases List.mem_cons.mp hx with
              | inl hxa => exact ⟨y, hxa ▸ ha⟩
              | inr hxs => exact ih has x hxs

/-- If some element always fails to evaluate, the fallible map fails. -/
theorem mapME_error_of_mem (f : α → Except ε β) {l : List α} {x : α}
    (hx : x ∈ l) (hfail : ∀ y, f x ≠ .ok y) : ∃ e, mapME f l = .error e := by
  cases h : mapME f l with
  | error e => exact ⟨e, rfl⟩
  | ok ys =>
      obtain ⟨y, hy⟩ := mapME_ok_forall h x hx
      exact absurd hy (hfail y)

/-- Mapping a prefix on which every element evaluates to `false`. -/
theorem mapME_false_front {f : α → Except ε Bool} :
    ∀ (pre : List α), (∀ p ∈ pre, f p = .ok false) →
      ∀ {rest : List α} {bs : List Bool}, mapME f rest = .ok bs →
        mapME f (pre ++ rest) = .ok (pre.map (fun _ => false) ++ bs) := by
  intro pre
  induction pre with
  | nil => intro _ rest bs h; simpa using h
  | cons p pre' ih =>
      intro hpre rest bs h
      have hp : f p = .ok false := hpre p (List.mem_cons_self p pre')
      have hrest := ih (fun q hq => hpre q (List.mem_cons_of_mem p hq)) h
      simp only [List.cons_append, List.map_cons]
      rw [mapME, hp, hrest]

/-- Mapping a list on which every element evaluates to `false`. -/
theorem mapME_all_false (f : α → Except ε Bool) {l : List α}
    (h : ∀ p ∈ l, f p = .ok false) :
    mapME f l = .ok (l.map (fun _ => false)) := by
  have := mapME_false_front l h (show mapME f [] = .ok [] from rfl)
  simpa using this

/-- When every element evaluates, so does the fallible map. -/
theorem mapME_exists_ok {f : α → Except ε β} :
    ∀ {l : List α}, (∀ p ∈ l, ∃ y, f p = .ok y) → ∃ ys, mapME f l = .ok ys := by
  intro l
  induction l with
  | nil => intro _; exact ⟨[], rfl⟩
  | cons a as ih =>
      intro h
      obtain ⟨y, hy⟩ := h a (List.mem_cons_self a as)
      obtain ⟨ys, hys⟩ := ih (fun q hq => h q (List.mem_cons_of_mem a hq))
      refine ⟨y :: ys, ?_⟩
      rw [mapME, hy, hys]

/-- Selection lands on the stub carrying the first `true` flag. -/
theorem selectFirst_false_front :
    ∀ (pre : List Stub) (s : Stub) (post : List Stub) (postflags : List Bool),
      selectFirst (pre ++ s :: post) ((pre.map (fun _ => false)) ++ true :: postflags) =
        some (pre, s, post) := by
  intro pre
  induction pre with
  | nil => intro s post postflags; simp [selectFirst]
  | cons p pre' ih =>
      intro s post postflags
      simp only [List.cons_append, List.map_cons, selectFirst, List.append_eq]
      rw [ih s post postflags]
      simp

/-- With every flag `false`, nothing is selected. -/
theorem selectFirst_all_false :
    ∀ (stubs : List Stub), selectFirst stubs (stubs.map (fun _ => false)) = none := by
  intro stubs
  induction stubs with
  | nil => rfl
  | cons s rest ih =>
      simp only [List.map_cons, selectFirst]
      rw [ih]
      simp

end Lemmas

/-- When every stub before `s` cleanly fails to match, `s` matches, and no
stub after `s` throws, `resolve` operates on `s`: it rotates `s`'s queue,
hands `s`'s head descriptor to the resolver against the rotated list, and
either records one match on `s` and fulfills, or rejects and records
nothing. -/
theorem resolve_eq_selected (resolver : Resolver) (pre : List Stub) (s : Stub)
    (post : List Stub) (request : Value) (ts : String)
    (hpre : ∀ p ∈ pre, stubMatch p request = .ok false)
    (hs : stubMatch s request = .ok true)
    (hpost : ∀ p ∈ post, ∃ b, stubMatch p request = .ok b) :
    resolve resolver (pre ++ s :: post) request ts =
      .ok (match resolver s.responses.head? request (pre ++ s.rotate :: post) with
           | .ok response =>
              (pre ++ (s.rotate.record ⟨ts, request, response⟩) :: post, .ok response)
           | .error e => (pre ++ s.rotate :: post, .error e)) := by
  obtain ⟨postflags, hpostflags⟩ := mapME_exists_ok hpost
  have hcons : mapME (fun stub => stubMatch stub request) (s :: post) = .ok (true :: postflags) := by
    rw [mapME, hs, hpostflags]
  have hflags := mapME_false_front pre hpre hcons
  simp only [resolve, findFirstMatch]
  rw [hflags]
  simp only [selectFirst_false_front, Stub.rotate, Stub.record]
  cases resolver s.responses.head? request
      (pre ++ { s with responses := rotateQueue s.responses } :: post) <;> rfl

/-- Unfolding `evalEntries` one entry at a time through `evaluateKey`. -/
theorem evalEntries_cons (fieldName key : String) (arg source : Value)
    (rest : List (String × Value)) (request : Value) :
    evalEntries fieldName source ((key, arg) :: rest) request =
      match evaluateKey fieldName key arg source request with
      | .error e => .error e
      | .ok r =>
          match evalEntries fieldName source rest request with
          | .error e => .error e
          | .ok rs => .ok (r :: rs) := rfl

/-- Dispatching a bad entry always throws. -/
theorem evaluateKey_error_of_bad {key : String} {arg : Value}
    (hreg : predicatesReg key = none) (harg : arg.isMapping = false) :
    ∀ (fieldName : String) (source request : Value),
      ∃ e, evaluateKey fieldName key arg source request = .error e := by
  intro fieldName source request
  cases arg with
  | obj fields => simp [Value.isMapping] at harg
  | arr items =>
      refine ⟨.predicateMustBeObject (.arr items), ?_⟩
      simp [evaluateKey, hreg, Value.isObjectType, matchesPredicate]
  | str s => exact ⟨.noPredicate key source, by simp [evaluateKey, hreg, Value.isObjectType]⟩
  | num n => exact ⟨.noPredicate key source, by simp [evaluateKey, hreg, Value.isObjectType]⟩
  | bool b => exact ⟨.noPredicate key source, by simp [evaluateKey, hreg, Value.isObjectType]⟩

/-- A node containing a bad entry never evaluates cleanly: some
`ValidationError` is thrown while walking its keys. -/
theorem evalEntries_error_of_bad :
    ∀ (entries : List (String × Value)), (∃ ka ∈ entries, badEntry ka) →
      ∀ (fieldName : String) (source request : Value),
        ∃ e, evalEntries fieldName source entries request = .error e := by
  intro entries
  induction entries with
  | nil => intro h; obtain ⟨ka, hm, _⟩ := h; cases hm
  | cons hd tl ih =>
      intro h fieldName source request
      obtain ⟨key, arg⟩ := hd
      obtain ⟨ka, hm, hbad⟩ := h
      rcases List.mem_cons.mp hm with heq | htl
      · subst heq
        obtain ⟨hreg, hobj⟩ := hbad
        obtain ⟨e, he⟩ := evaluateKey_error_of_bad hreg hobj fieldName source request
        refine ⟨e, ?_⟩
        rw [evalEntries_cons, he]
      · rw [evalEntries_cons]
        cases hk : evaluateKey fieldName key arg source request with
        | error e => exact ⟨e, rfl⟩
        | ok r =>
            obtain ⟨e, he⟩ := ih ⟨ka, htl, hbad⟩ fieldName source request
            rw [he]
            exact ⟨e, rfl⟩

/-- A malformed node always throws, whatever the field name and request. -/
theorem matchesPredicate_error_of_malformed {node : Value} (h : malformedNode node) :
    ∀ (fieldName : String) (request : Value),
      ∃ e, matchesPredicate fieldName node request = .error e := by
  intro fieldName request
  cases node with
  | obj entries =>
      simp only [malformedNode] at h
      obtain ⟨e, he⟩ := evalEntries_error_of_bad entries h fieldName (.obj entries) request
      refine ⟨e, ?_⟩
      simp only [matchesPredicate]
      rw [he]
  | str s => exact ⟨_, rfl⟩
  | num n => exact ⟨_, rfl⟩
  | bool b => exact ⟨_, rfl⟩
  | arr items => exact ⟨_, rfl⟩

/-- A stub with a malformed predicate never evaluates cleanly. -/
theorem stubMatch_error_of_malformed {t : Stub} (h : malformedStub t) (request : Value) :
    ∃ e, stubMatch t request = .error e := by
  obtain ⟨fn, hmem, hmal⟩ := h
  have hfail : ∀ b, matchesPredicate fn.1 fn.2 request ≠ .ok b := by
    intro b hb
    obtain ⟨e, he⟩ := matchesPredicate_error_of_malformed hmal fn.1 request
    rw [hb] at he
    cases he
  obtain ⟨e, he⟩ :=
    mapME_error_of_mem (fun kv => matchesPredicate kv.1 kv.2 request) hmem hfail
  refine ⟨e, ?_⟩
  simp only [stubMatch, trueForAll]
  rw [he]

/-- Iteration at zero steps. -/
theorem iterate_zero (resolver : Resolver) (stubs : List Stub) (request : Value) (ts : String) :
    iterateResolve resolver stubs request ts 0 = .ok (stubs, []) := rfl

/-- Chaining one successful `resolve` in front of an iteration. -/
theorem iterate_cons {resolver : Resolver} {stubs stubs1 stubs2 : List Stub}
    {request : Value} {ts : String} {r : Except Value Value} {rs : List (Except Value Value)}
    {n : Nat} (h1 : resolve resolver stubs request ts = .ok (stubs1, r))
    (h2 : iterateResolve resolver stubs1 request ts n = .ok (stubs2, rs)) :
    iterateResolve resolver stubs request ts (n + 1) = .ok (stubs2, r :: rs) := by
  simp only [iterateResolve]
  rw [h1]
  simp only [h2]

/-- One `resolve` through the echo resolver on a matched stub. -/
theorem resolve_echo_step (preds : List (String × Value)) (r : Value) (rest : List Value)
    (ms : List MatchRecord) (request : Value) (ts : String)
    (h : trueForAll preds (fun f node => matchesPredicate f node request) = .ok true) :
    resolve echoResolver [⟨preds, r :: rest, ms⟩] request ts =
      .ok ([⟨preds, rest ++ [r], ms ++ [⟨ts, request, r⟩]⟩], .ok r) := by
  have hsel := resolve_eq_selected echoResolver [] ⟨preds, r :: rest, ms⟩ [] request ts
    (by intro p hp; cases hp) h (by intro p hp; cases hp)
  simpa [Stub.rotate, Stub.record, rotateQueue, echoResolver] using hsel

/-- Running the echo resolver once per descriptor consumes the whole queue
front in configured order and rotates it to the back. -/
theorem iterate_echo_cycle (preds : List (String × Value)) (request : Value) (ts : String)
    (h : trueForAll preds (fun f node => matchesPredicate f node request) = .ok true) :
    ∀ (front back : List Value) (ms : List MatchRecord),
      iterateResolve echoResolver [⟨preds, front ++ back, ms⟩] request ts front.length =
        .ok ([⟨preds, back ++ front, ms ++ front.map (fun r => ⟨ts, request, r⟩)⟩],
             front.map (fun r => .ok r)) := by
  intro front
  induction front with
  | nil => intro back ms; simp [iterate_zero]
  | cons f fr ih =>
      intro back ms
      have step := resolve_echo_step preds f (fr ++ back) ms request ts h
      have tail := ih (back ++ [f]) (ms ++ [⟨ts, request, f⟩])
      rw [List.append_assoc] at step
      have chain := iterate_cons step tail
      simpa [List.append_assoc] using chain

/-- C1: for every request and every stub list in which at least two stubs
match, `resolve` selects the stub occurring earliest in insertion order —
its queue head is handed to the resolver and only it is rotated/recorded —
never a later matching stub's, on every call. -/
theorem first_match_precedence (resolver : Resolver) (pre : List Stub) (s : Stub)
    (post : List Stub) (request : Value) (ts : String)
    (hpre : ∀ p ∈ pre, stubMatch p request = .ok false)
    (hs : stubMatch s request = .ok true)
    (hpost : ∀ p ∈ post, ∃ b, stubMatch p request = .ok b)
    (_hlater : ∃ p ∈ post, stubMatch p request = .ok true) :
    resolve resolver (pre ++ s :: post) request ts =
      .ok (match resolver s.responses.head? request (pre ++ s.rotate :: post) with
           | .ok response =>
              (pre ++ (s.rotate.record ⟨ts, request, response⟩) :: post, .ok response)
           | .error e => (pre ++ s.rotate :: post, .error e)) :=
  resolve_eq_selected resolver pre s post request ts hpre hs hpost

/-- Witness for `first_match_precedence`: both `stubA` and `stubB` match
`reqA`; the first one is used. -/
theorem first_match_precedence_witness :
    (∀ p ∈ ([] : List Stub), stubMatch p reqA = .ok false) ∧
    stubMatch stubA reqA = .ok true ∧
    (∀ p ∈ [stubB], ∃ b, stubMatch p reqA = .ok b) ∧
    (∃ p ∈ [stubB], stubMatch p reqA = .ok true) ∧
    resolve echoResolver ([] ++ stubA :: [stubB]) reqA "t0" =
      .ok (match echoResolver stubA.responses.head? reqA ([] ++ stubA.rotate :: [stubB]) with
           | .ok response =>
              ([] ++ (stubA.rotate.record ⟨"t0", reqA, response⟩) :: [stubB], .ok response)
           | .error e => ([] ++ stubA.rotate :: [stubB], .error e)) := by
  have hpre : ∀ p ∈ ([] : List Stub), stubMatch p reqA = .ok false := by
    intro p hp
    cases hp
  have hpost : ∀ p ∈ [stubB], ∃ b, stubMatch p reqA = .ok b := by
    intro p hp
    rw [List.mem_singleton] at hp
    subst hp
    exact ⟨true, rfl⟩
  have hlater : ∃ p ∈ [stubB], stubMatch p reqA = .ok true :=
    ⟨stubB, List.mem_singleton.mpr rfl, rfl⟩
  exact ⟨hpre, rfl, hpost, hlater,
    first_match_precedence echoResolver [] stubA [stubB] reqA "t0" hpre rfl hpost hlater⟩

/-- C4: with zero stubs, or only stubs whose well-formed predicates do not
all hold for the request, `resolve` does not throw: it falls back to the
implicit stub with single descriptor `{ is: {} }`, returns the resolver's
result for it, and leaves the repository unchanged. -/
theorem no_match_fallback (resolver : Resolver) (stubs : List Stub) (request : Value)
    (ts : String) (h : ∀ st ∈ stubs, stubMatch st request = .ok false) :
    resolve resolver stubs request ts =
      .ok (stubs, resolver (some responseDefault) request stubs) := by
  have hflags := mapME_all_false (fun st => stubMatch st request) h
  simp only [resolve, findFirstMatch]
  rw [hflags]
  simp only [selectFirst_all_false]

/-- Witness for `no_match_fallback`: `stubC` does not match `reqA`. -/
theorem no_match_fallback_witness :
    (∀ st ∈ [stubC], stubMatch st reqA = .ok false) ∧
    resolve echoResolver [stubC] reqA "t0" =
      .ok ([stubC], echoResolver (some responseDefault) reqA [stubC]) := by
  have h : ∀ st ∈ [stubC], stubMatch st reqA = .ok false := by
    intro st hst
    rw [List.mem_singleton] at hst
    subst hst
    rfl
  exact ⟨h, no_match_fallback echoResolver [stubC] reqA "t0" h⟩

/-- C5: a match record is appended to the selected stub's history iff the
resolver succeeds — on success exactly one record `{timestamp, request,
response}` is appended and the call is fulfilled with the response; on
failure the call is rejected with the failure verbatim and no history
anywhere changes. -/
theorem match_history_append_iff_success (resolver : Resolver) (pre : List Stub) (s : Stub)
    (post : List Stub) (request : Value) (ts : String)
    (hpre : ∀ p ∈ pre, stubMatch p request = .ok false)
    (hs : stubMatch s request = .ok true)
    (hpost : ∀ p ∈ post, ∃ b, stubMatch p request = .ok b) :
    (∀ response,
        resolver s.responses.head? request (pre ++ s.rotate :: post) = .ok response →
        resolve resolver (pre ++ s :: post) request ts =
          .ok (pre ++ (s.rotate.record ⟨ts, request, response⟩) :: post, .ok response)) ∧
    (∀ e,
        resolver s.responses.head? request (pre ++ s.rotate :: post) = .error e →
        resolve resolver (pre ++ s :: post) request ts =
          .ok (pre ++ s.rotate :: post, .error e)) := by
  have h := resolve_eq_selected resolver pre s post request ts hpre hs hpost
  constructor
  · intro response hres
    rw [h, hres]
  · intro e hres
    rw [h, hres]

/-- Witness for `match_history_append_iff_success` on the single stub
`stubA`. -/
theorem match_history_append_iff_success_witness :
    (∀ p ∈ ([] : List Stub), stubMatch p reqA = .ok false) ∧
    stubMatch stubA reqA = .ok true ∧
    (∀ p ∈ ([] : List Stub), ∃ b, stubMatch p reqA = .ok b) ∧
    ((∀ response,
        echoResolver stubA.responses.head? reqA ([] ++ stubA.rotate :: []) = .ok response →
        resolve echoResolver ([] ++ stubA :: []) reqA "t0" =
          .ok ([] ++ (stubA.rotate.record ⟨"t0", reqA, response⟩) :: [], .ok response)) ∧
     (∀ e,
        echoResolver stubA.responses.head? reqA ([] ++ stubA.rotate :: []) = .error e →
        resolve echoResolver ([] ++ stubA :: []) reqA "t0" =
          .ok ([] ++ stubA.rotate :: [], .error e))) := by
  have hnil1 : ∀ p ∈ ([] : List Stub), stubMatch p reqA = .ok false := by
    intro p hp
    cases hp
  have hnil2 : ∀ p ∈ ([] : List Stub), ∃ b, stubMatch p reqA = .ok b := by
    intro p hp
    cases hp
  exact ⟨hnil1, rfl, hnil2,
    match_history_append_iff_success echoResolver [] stubA [] reqA "t0" hnil1 rfl hnil2⟩

/-- C9: the queue rotation is performed before the resolver is invoked —
a resolver that reports the stub list it received sees the selected stub's
queue already advanced — and when the resolver fails the queue remains
advanced while every match history is unchanged. -/
theorem rotation_precedes_resolution (pre : List Stub) (s : Stub) (post : List Stub)
    (request : Value) (ts : String)
    (hpre : ∀ p ∈ pre, stubMatch p request = .ok false)
    (hs : stubMatch s request = .ok true)
    (hpost : ∀ p ∈ post, ∃ b, stubMatch p request = .ok b) :
    resolve spyResolver (pre ++ s :: post) request ts =
      .ok (pre ++ (s.rotate.record ⟨ts, request, queuesOf (pre ++ s.rotate :: post)⟩) :: post,
           .ok (queuesOf (pre ++ s.rotate :: post))) ∧
    (∀ (resolver : Resolver) (e : Value),
        resolver s.responses.head? request (pre ++ s.rotate :: post) = .error e →
        resolve resolver (pre ++ s :: post) request ts =
          .ok (pre ++ s.rotate :: post, .error e)) := by
  constructor
  · rw [resolve_eq_selected spyResolver pre s post request ts hpre hs hpost]
    rfl
  · intro resolver e hres
    rw [resolve_eq_selected resolver pre s post request ts hpre hs hpost, hres]

/-- Witness for `rotation_precedes_resolution` with `stubA` selected ahead
of the non-matching `stubC`. -/
theorem rotation_precedes_resolution_witness :
    (∀ p ∈ ([] : List Stub), stubMatch p reqA = .ok false) ∧
    stubMatch stubA reqA = .ok true ∧
    (∀ p ∈ [stubC], ∃ b, stubMatch p reqA = .ok b) ∧
    (resolve spyResolver ([] ++ stubA :: [stubC]) reqA "t0" =
      .ok ([] ++ (stubA.rotate.record
              ⟨"t0", reqA, queuesOf ([] ++ stubA.rotate :: [stubC])⟩) :: [stubC],
           .ok (queuesOf ([] ++ stubA.rotate :: [stubC]))) ∧
     (∀ (resolver : Resolver) (e : Value),
        resolver stubA.responses.head? reqA ([] ++ stubA.rotate :: [stubC]) = .error e →
        resolve resolver ([] ++ stubA :: [stubC]) reqA "t0" =
          .ok ([] ++ stubA.rotate :: [stubC], .error e))) := by
  have hpre : ∀ p ∈ ([] : List Stub), stubMatch p reqA = .ok false := by
    intro p hp
    cases hp
  have hpost : ∀ p ∈ [stubC], ∃ b, stubMatch p reqA = .ok b := by
    intro p hp
    rw [List.mem_singleton] at hp
    subst hp
    exact ⟨false, rfl⟩
  exact ⟨hpre, rfl, hpost,
    rotation_precedes_resolution [] stubA [stubC] reqA "t0" hpre rfl hpost⟩

/-- C2: a predicate node holding at least one recognized operator key and
at least one key that neither names an operator nor carries an
object-typed argument always raises a `ValidationError`, whatever the
recognized keys evaluate to — every key is evaluated, never
short-circuited at the first boolean result. -/
theorem exhaustive_validation_raises (fieldName : String)
    (entries : List (String × Value)) (request : Value)
    (_hvalid : ∃ ka ∈ entries, (predicatesReg ka.1).isSome = true)
    (hbad : ∃ ka ∈ entries, badEntry ka) :
    ∃ e, matchesPredicate fieldName (.obj entries) request = .error e := by
  obtain ⟨e, he⟩ := evalEntries_error_of_bad entries hbad fieldName (.obj entries) request
  refine ⟨e, ?_⟩
  simp only [matchesPredicate]
  rw [he]

/-- Witness for `exhaustive_validation_raises`: a node with a valid
`equals` key (which even evaluates to `true` for `reqA`) and a bogus key
still throws. -/
theorem exhaustive_validation_raises_witness :
    (∃ ka ∈ [("equals", Value.str "/a"), ("bogus", Value.str "x")],
        (predicatesReg ka.1).isSome = true) ∧
    (∃ ka ∈ [("equals", Value.str "/a"), ("bogus", Value.str "x")], badEntry ka) ∧
    (∃ e, matchesPredicate "path"
        (.obj [("equals", Value.str "/a"), ("bogus", Value.str "x")]) reqA = .error e) := by
  have hvalid : ∃ ka ∈ [("equals", Value.str "/a"), ("bogus", Value.str "x")],
      (predicatesReg ka.1).isSome = true :=
    ⟨("equals", Value.str "/a"), List.mem_cons_self _ _, rfl⟩
  have hbad : ∃ ka ∈ [("equals", Value.str "/a"), ("bogus", Value.str "x")], badEntry ka :=
    ⟨("bogus", Value.str "x"), List.mem_cons_of_mem _ (List.mem_cons_self _ _), rfl, rfl⟩
  exact ⟨hvalid, hbad,
    exhaustive_validation_raises "path"
      [("equals", Value.str "/a"), ("bogus", Value.str "x")] reqA hvalid hbad⟩

/-- C3: response descriptors are served round-robin — each resolution pops
the head and re-appends it to the tail, so a stub with N descriptors
cycles through all N in configured order across N consecutive matches and
the queue returns to its original order; with queue `[A, B, C]`, four
resolutions yield `A, B, C, A`. -/
theorem round_robin_stability (preds : List (String × Value)) (rs : List Value)
    (ms ms2 : List MatchRecord) (request : Value) (ts : String) (A B C : Value)
    (h : trueForAll preds (fun f node => matchesPredicate f node request) = .ok true) :
    iterateResolve echoResolver [⟨preds, rs, ms⟩] request ts rs.length =
      .ok ([⟨preds, rs, ms ++ rs.map (fun r => ⟨ts, request, r⟩)⟩], rs.map (fun r => .ok r)) ∧
    iterateResolve echoResolver [⟨preds, [A, B, C], ms2⟩] request ts 4 =
      .ok ([⟨preds, [B, C, A],
            ms2 ++ [⟨ts, request, A⟩, ⟨ts, request, B⟩, ⟨ts, request, C⟩, ⟨ts, request, A⟩]⟩],
           [.ok A, .ok B, .ok C, .ok A]) := by
  constructor
  · have hc := iterate_echo_cycle preds request ts h rs [] ms
    simpa using hc
  · have s1 := resolve_echo_step preds A [B, C] ms2 request ts h
    have s2 := resolve_echo_step preds B [C, A] (ms2 ++ [⟨ts, request, A⟩]) request ts h
    have s3 := resolve_echo_step preds C [A, B]
      ((ms2 ++ [⟨ts, request, A⟩]) ++ [⟨ts, request, B⟩]) request ts h
    have s4 := resolve_echo_step preds A [B, C]
      (((ms2 ++ [⟨ts, request, A⟩]) ++ [⟨ts, request, B⟩]) ++ [⟨ts, request, C⟩]) request ts h
    have chain := iterate_cons s1 (iterate_cons s2 (iterate_cons s3 (iterate_cons s4
      (iterate_zero _ _ _ _))))
    simpa using chain

/-- Witness for `round_robin_stability` on a stub with an empty (hence
always-matching) predicate mapping. -/
theorem round_robin_stability_witness :
    (trueForAll [] (fun f node => matchesPredicate f node reqA) = .ok true) ∧
    (iterateResolve echoResolver
        [⟨[], [Value.str "A", Value.str "B", Value.str "C"], []⟩] reqA "t0"
        [Value.str "A", Value.str "B", Value.str "C"].length =
      .ok ([⟨[], [Value.str "A", Value.str "B", Value.str "C"],
            [] ++ [Value.str "A", Value.str "B", Value.str "C"].map
                    (fun r => ⟨"t0", reqA, r⟩)⟩],
           [Value.str "A", Value.str "B", Value.str "C"].map (fun r => .ok r)) ∧
     iterateResolve echoResolver
        [⟨[], [Value.str "A", Value.str "B", Value.str "C"], []⟩] reqA "t0" 4 =
      .ok ([⟨[], [Value.str "B", Value.str "C", Value.str "A"],
            [] ++ [⟨"t0", reqA, Value.str "A"⟩, ⟨"t0", reqA, Value.str "B"⟩,
                   ⟨"t0", reqA, Value.str "C"⟩, ⟨"t0", reqA, Value.str "A"⟩]⟩],
           [.ok (Value.str "A"), .ok (Value.str "B"), .ok (Value.str "C"),
            .ok (Value.str "A")])) :=
  ⟨rfl, round_robin_stability [] [Value.str "A", Value.str "B", Value.str "C"] [] []
    reqA "t0" (Value.str "A") (Value.str "B") (Value.str "C") rfl⟩

/-- C6: selection evaluates the predicates of every stub, so a stub with a
malformed predicate anywhere in the list makes `resolve` reject with a
`ValidationError`, even when an earlier stub fully and validly matches the
request. -/
theorem malformed_predicate_rejects_resolve (resolver : Resolver) (pre : List Stub)
    (s : Stub) (post : List Stub) (t : Stub) (request : Value) (ts : String)
    (_hs : stubMatch s request = .ok true)
    (ht : t ∈ post) (hmal : malformedStub t) :
    ∃ e, resolve resolver (pre ++ s :: post) request ts = .error e := by
  have hfail : ∀ b, stubMatch t request ≠ .ok b := by
    intro b hb
    obtain ⟨e, he⟩ := stubMatch_error_of_malformed hmal request
    rw [hb] at he
    cases he
  have htmem : t ∈ pre ++ s :: post :=
    List.mem_append_right pre (List.mem_cons_of_mem s ht)
  obtain ⟨e, he⟩ := mapME_error_of_mem (fun st => stubMatch st request) htmem hfail
  refine ⟨e, ?_⟩
  simp only [resolve, findFirstMatch]
  rw [he]

/-- Witness for `malformed_predicate_rejects_resolve`: `stubA` matches
`reqA` but the later `stubBroken` still poisons the call. -/
theorem malformed_predicate_rejects_resolve_witness :
    stubMatch stubA reqA = .ok true ∧
    stubBroken ∈ [stubBroken] ∧
    malformedStub stubBroken ∧
    (∃ e, resolve echoResolver ([] ++ stubA :: [stubBroken]) reqA "t0" = .error e) := by
  have hmal : malformedStub stubBroken :=
    ⟨("path", .obj [("bogus", .str "x")]), List.mem_cons_self _ _,
      ⟨("bogus", .str "x"), List.mem_cons_self _ _, rfl, rfl⟩⟩
  exact ⟨rfl, List.mem_cons_self _ _, hmal,
    malformed_predicate_rejects_resolve echoResolver [] stubA [stubBroken] stubBroken
      reqA "t0" rfl (List.mem_cons_self _ _) hmal⟩

/-- C7: a predicate key that names no recognized operator but carries a
structured-mapping argument recurses with the field name extended by a dot
and the key (purely textual composition) and the argument as the new node;
the predicate `{headers: {equals: {X-Test: a}}}` matches a request with
header `X-Test: a` and fails against header value `b`. -/
theorem nested_field_addressing (fieldName key : String) (arg source request : Value)
    (hreg : predicatesReg key = none) (harg : arg.isMapping = true) :
    evaluateKey fieldName key arg source request =
      matchesPredicate (fieldName ++ "." ++ key) arg request ∧
    matchesPredicate "headers" (.obj [("equals", .obj [("X-Test", .str "a")])])
      (.obj [("headers", .obj [("X-Test", .str "a")])]) = .ok true ∧
    matchesPredicate "headers" (.obj [("equals", .obj [("X-Test", .str "a")])])
      (.obj [("headers", .obj [("X-Test", .str "b")])]) = .ok false := by
  refine ⟨?_, rfl, rfl⟩
  cases arg with
  | obj fields => simp [evaluateKey, hreg, Value.isObjectType]
  | str s => simp [Value.isMapping] at harg
  | num n => simp [Value.isMapping] at harg
  | bool b => simp [Value.isMapping] at harg
  | arr items => simp [Value.isMapping] at harg

/-- Witness for `nested_field_addressing` at the unrecognized key
`custom`. -/
theorem nested_field_addressing_witness :
    predicatesReg "custom" = none ∧
    (Value.obj [("X-Test", Value.str "a")]).isMapping = true ∧
    (evaluateKey "headers" "custom" (.obj [("X-Test", .str "a")]) (.obj []) reqA =
       matchesPredicate ("headers" ++ "." ++ "custom") (.obj [("X-Test", .str "a")]) reqA ∧
     matchesPredicate "headers" (.obj [("equals", .obj [("X-Test", .str "a")])])
       (.obj [("headers", .obj [("X-Test", .str "a")])]) = .ok true ∧
     matchesPredicate "headers" (.obj [("equals", .obj [("X-Test", .str "a")])])
       (.obj [("headers", .obj [("X-Test", .str "b")])]) = .ok false) :=
  ⟨rfl, rfl,
    nested_field_addressing "headers" "custom" (.obj [("X-Test", .str "a")]) (.obj [])
      reqA rfl rfl⟩

/-- C8: wherever an object is required, a non-mapping predicate value is
itself a `ValidationError`, raised immediately and independently of any
key evaluation. -/
theorem non_object_predicate_rejected (fieldName : String) (node request : Value)
    (h : node.isMapping = false) :
    matchesPredicate fieldName node request = .error (.predicateMustBeObject node) := by
  cases node with
  | obj fields => simp [Value.isMapping] at h
  | str s => rfl
  | num n => rfl
  | bool b => rfl
  | arr items => rfl

/-- Witness for `non_object_predicate_rejected` at a string node. -/
theorem non_object_predicate_rejected_witness :
    (Value.str "oops").isMapping = false ∧
    matchesPredicate "path" (.str "oops") reqA = .error (.predicateMustBeObject (.str "oops")) :=
  ⟨rfl, non_object_predicate_rejected "path" (.str "oops") reqA rfl⟩

